import Mathlib

/-!
Shallow embedding of the UniBase buffer pool manager
(`src/src/storage/buffer_pool_manager.cpp`).

Pure state-passing model: every public operation maps a `BPM` state to a
result together with the successor state.  Persistent-store traffic is
recorded both in a durable store map and in an event trace, so that
claims about the number and order of reads/writes can be stated.
-/

namespace UniBase

/-- Page payload bytes.  The byte width of a page is irrelevant to every
claim, so content is a plain list of naturals. -/
abbrev Bytes := List Nat

/-- Modelled from the spec (§3, the `Page`/`PageId` header is not under
`src/`): `page_number = INVALID` is a sentinel meaning "no page". -/
def INVALID_PAGE_ID : Int := -1

/-- Composite page identity `(file_descriptor, page_number)` (spec §3). -/
structure PageId where
  fd : Int
  page_no : Int
deriving DecidableEq

/-- One frame's content: data bytes, identity, dirty flag, pin count
(spec §3; the `Page` class itself is not under `src/`). -/
structure Page where
  data : Bytes
  id_ : PageId
  is_dirty_ : Bool
  pin_count_ : Nat

/-- Modelled from the spec (§4.7 "reset the frame's content to empty"):
`Page::reset_memory` clears the data bytes and nothing else. -/
def emptyData : Bytes := []

/-- Modelled from the spec: `reset_memory` resets only the content. -/
def resetMemory (p : Page) : Page := { p with data := emptyData }

/-- Persistent-store events, newest last in the trace. -/
inductive DiskEvent where
  | readE (fd : Int) (pno : Int) (d : Bytes)
  | writeE (fd : Int) (pno : Int) (d : Bytes)
  | allocE (fd : Int) (pno : Int)
deriving DecidableEq

/-- Modelled from the spec (§6, the disk manager is an external
collaborator): current durable bytes per page plus a monotone
next-page-number counter per file. -/
structure DiskManager where
  store : PageId → Bytes
  nextNo : Int → Int

/-- Modelled from the spec (§6): `write_page` durably persists bytes. -/
def writePage (dm : DiskManager) (pid : PageId) (d : Bytes) : DiskManager :=
  { dm with store := fun q => if q = pid then d else dm.store q }

/-- Modelled from the spec (§6): `read_page` returns the durable bytes. -/
def readPage (dm : DiskManager) (pid : PageId) : Bytes := dm.store pid

/-- Modelled from the spec (§6): `allocate_page` hands out a fresh,
monotonically increasing page number for the file. -/
def allocatePage (dm : DiskManager) (fd : Int) : Int × DiskManager :=
  (dm.nextNo fd,
   { dm with nextNo := fun f => if f = fd then dm.nextNo fd + 1 else dm.nextNo f })

/-- Modelled from the spec (§6): the eviction policy's eligible set,
kept as a queue; `pin` removes a frame from eligibility. -/
def repPin (f : Nat) (r : List Nat) : List Nat :=
  r.filter fun x => decide (x ≠ f)

/-- Modelled from the spec (§6): `unpin` adds a frame back to
eligibility (at the queue's back if not already present). -/
def repUnpin (f : Nat) (r : List Nat) : List Nat :=
  if f ∈ r then r else r ++ [f]

/-- Association-list page table: first binding for a key wins. -/
def ptLookup (id : PageId) : List (PageId × Nat) → Option Nat
  | [] => none
  | e :: rest => if e.1 = id then some e.2 else ptLookup id rest

/-- Erase every binding of a key (`std::unordered_map::erase`). -/
def ptErase (id : PageId) (t : List (PageId × Nat)) : List (PageId × Nat) :=
  t.filter fun e => decide (e.1 ≠ id)

/-- Insert-or-overwrite a binding (`page_table_[id] = frame`). -/
def ptInsert (id : PageId) (f : Nat) (t : List (PageId × Nat)) :
    List (PageId × Nat) :=
  (id, f) :: ptErase id t

/-- Whole-pool state: frame array, page table, free list, eviction
policy's eligible queue, disk, and the I/O event trace. -/
structure BPM where
  poolSize : Nat
  frames : Nat → Page
  pageTable : List (PageId × Nat)
  freeList : List Nat
  replacer : List Nat
  disk : DiskManager
  trace : List DiskEvent

/-- Source `BufferPoolManager::find_victim_page`: pop the free list if it is
non-empty, otherwise ask the replacer for a victim and remove the
victim's current page-table entry. -/
def find_victim_page (s : BPM) : Option Nat × BPM :=
  match s.freeList with
  | f :: rest => (some f, { s with freeList := rest })
  | [] =>
    match s.replacer with
    | [] => (none, s)
    | v :: rest =>
      (some v,
       { s with
           replacer := rest,
           pageTable := ptErase (s.frames v).id_ s.pageTable })

/-- Source `BufferPoolManager::update_page`: write back if dirty (clearing the
flag), zero the pin count, move the table entry from the frame's old
identity to the new one, reset the content, set the new identity. -/
def update_page (s : BPM) (fid : Nat) (newId : PageId) : BPM :=
  let p := s.frames fid
  { s with
      disk := if p.is_dirty_ then writePage s.disk p.id_ p.data else s.disk,
      trace :=
        if p.is_dirty_ then
          s.trace ++ [DiskEvent.writeE p.id_.fd p.id_.page_no p.data]
        else s.trace,
      pageTable := ptInsert newId fid (ptErase p.id_ s.pageTable),
      frames := fun g =>
        if g = fid then
          { data := emptyData, id_ := newId, is_dirty_ := false, pin_count_ := 0 }
        else s.frames g }

/-- Source `BufferPoolManager::fetch_page`.  Hit: pin in the replacer and bump
the pin count.  Miss: acquire a frame, write back via `update_page` if
its current content is dirty, read the page from disk, install the new
identity in the table and the frame, pin it with `pin_count_ = 1`. -/
def fetch_page (id : PageId) (s : BPM) : Option Nat × BPM :=
  match ptLookup id s.pageTable with
  | some fid =>
    (some fid,
     { s with
         replacer := repPin fid s.replacer,
         frames := fun g =>
           if g = fid then
             { s.frames fid with pin_count_ := (s.frames fid).pin_count_ + 1 }
           else s.frames g })
  | none =>
    match find_victim_page s with
    | (none, s1) => (none, s1)
    | (some fid, s1) =>
      let s2 := if (s1.frames fid).is_dirty_ then update_page s1 fid id else s1
      let d := readPage s2.disk id
      (some fid,
       { s2 with
           trace := s2.trace ++ [DiskEvent.readE id.fd id.page_no d],
           pageTable := ptInsert id fid s2.pageTable,
           replacer := repPin fid s2.replacer,
           frames := fun g =>
             if g = fid then
               { data := d, id_ := id,
                 is_dirty_ := (s2.frames fid).is_dirty_, pin_count_ := 1 }
             else s2.frames g })

/-- Source `BufferPoolManager::unpin_page`: fail on a non-resident id or a zero
pin count; otherwise decrement, notify the replacer when the count
reaches zero, and set the dirty flag when asked to. -/
def unpin_page (id : PageId) (d : Bool) (s : BPM) : Bool × BPM :=
  match ptLookup id s.pageTable with
  | none => (false, s)
  | some fid =>
    let p := s.frames fid
    if p.pin_count_ = 0 then (false, s)
    else
      (true,
       { s with
           replacer :=
             if p.pin_count_ - 1 = 0 then repUnpin fid s.replacer else s.replacer,
           frames := fun g =>
             if g = fid then
               { p with pin_count_ := p.pin_count_ - 1,
                        is_dirty_ := p.is_dirty_ || d }
             else s.frames g })

/-- Source `BufferPoolManager::flush_page`: fail on a non-resident id or the
invalid sentinel; otherwise write the frame's current bytes back
unconditionally and clear the dirty flag. -/
def flush_page (id : PageId) (s : BPM) : Bool × BPM :=
  match ptLookup id s.pageTable with
  | none => (false, s)
  | some fid =>
    if id.page_no = INVALID_PAGE_ID then (false, s)
    else
      let p := s.frames fid
      (true,
       { s with
           disk := writePage s.disk id p.data,
           trace := s.trace ++ [DiskEvent.writeE id.fd id.page_no p.data],
           frames := fun g =>
             if g = fid then { p with is_dirty_ := false } else s.frames g })

/-- Source `BufferPoolManager::new_page`: acquire a frame, allocate a fresh
page number into the out-parameter, write the frame's content back if
dirty, pin the frame with count 1, install the new identity.  Returns
the frame together with the (possibly updated) out-parameter. -/
def new_page (pid : PageId) (s : BPM) : Option Nat × PageId × BPM :=
  match find_victim_page s with
  | (none, s1) => (none, pid, s1)
  | (some fid, s1) =>
    let a := allocatePage s1.disk pid.fd
    let pid2 : PageId := { pid with page_no := a.1 }
    let p := s1.frames fid
    (some fid, pid2,
     { s1 with
         disk := if p.is_dirty_ then writePage a.2 p.id_ p.data else a.2,
         trace :=
           s1.trace ++ [DiskEvent.allocE pid.fd a.1] ++
             (if p.is_dirty_ then
                [DiskEvent.writeE p.id_.fd p.id_.page_no p.data]
              else []),
         replacer := repPin fid s1.replacer,
         frames := fun g =>
           if g = fid then
             { data := p.data, id_ := pid2, is_dirty_ := false, pin_count_ := 1 }
           else s1.frames g,
         pageTable := ptInsert pid2 fid s1.pageTable })

/-- Source `BufferPoolManager::delete_page`: trivially succeed on a
non-resident id; refuse while pinned; otherwise write back if dirty
(the flag is NOT cleared by the source), drop the table entry, reset
the content, notify the replacer, and push the frame on the free
list. -/
def delete_page (id : PageId) (s : BPM) : Bool × BPM :=
  match ptLookup id s.pageTable with
  | none => (true, s)
  | some fid =>
    let p := s.frames fid
    if p.pin_count_ ≠ 0 then (false, s)
    else
      (true,
       { s with
           disk := if p.is_dirty_ then writePage s.disk p.id_ p.data else s.disk,
           trace :=
             if p.is_dirty_ then
               s.trace ++ [DiskEvent.writeE p.id_.fd p.id_.page_no p.data]
             else s.trace,
           pageTable := ptErase id s.pageTable,
           frames := fun g => if g = fid then resetMemory p else s.frames g,
           replacer := repUnpin fid s.replacer,
           freeList := s.freeList ++ [fid] })

/-- Source `BufferPoolManager::flush_all_pages`: call `flush_page` on every key
of the page table; the file-descriptor argument is never consulted. -/
def flush_all_pages (fd : Int) (s : BPM) : BPM :=
  (s.pageTable.map Prod.fst).foldl (fun st id => (flush_page id st).2) s

/-- Modelled from the spec (§3, construction is not under `src/`): a
fresh frame holds no valid page. -/
def initPage : Page :=
  { data := emptyData, id_ := { fd := -1, page_no := INVALID_PAGE_ID },
    is_dirty_ := false, pin_count_ := 0 }

/-- Modelled from the spec (§2/§3, the constructor is not under
`src/`): a pool of `n` frames, all on the free list, empty page table,
empty eligible set. -/
def initBPM (n : Nat) (dm : DiskManager) : BPM :=
  { poolSize := n, frames := fun _ => initPage, pageTable := [],
    freeList := List.range n, replacer := [], disk := dm, trace := [] }

/-- States reachable from a fresh pool by the public operations. -/
inductive Reachable (n : Nat) (dm : DiskManager) : BPM → Prop where
  | init : Reachable n dm (initBPM n dm)
  | fetch (id : PageId) (s : BPM) :
      Reachable n dm s → Reachable n dm (fetch_page id s).2
  | unpin (id : PageId) (d : Bool) (s : BPM) :
      Reachable n dm s → Reachable n dm (unpin_page id d s).2
  | flush (id : PageId) (s : BPM) :
      Reachable n dm s → Reachable n dm (flush_page id s).2
  | newp (pid : PageId) (s : BPM) :
      Reachable n dm s → Reachable n dm (new_page pid s).2.2
  | del (id : PageId) (s : BPM) :
      Reachable n dm s → Reachable n dm (delete_page id s).2
  | flushAll (fd : Int) (s : BPM) :
      Reachable n dm s → Reachable n dm (flush_all_pages fd s)

/-! ### Page-table helper lemmas -/

theorem mem_ptErase {e : PageId × Nat} {id : PageId} {t : List (PageId × Nat)} :
    e ∈ ptErase id t ↔ e ∈ t ∧ e.1 ≠ id := by
  simp [ptErase, List.mem_filter]

theorem mem_ptInsert {e : PageId × Nat} {id : PageId} {f : Nat}
    {t : List (PageId × Nat)} :
    e ∈ ptInsert id f t ↔ e = (id, f) ∨ (e ∈ t ∧ e.1 ≠ id) := by
  simp [ptInsert, mem_ptErase]

theorem ptLookup_mem {id : PageId} {t : List (PageId × Nat)} {f : Nat}
    (h : ptLookup id t = some f) : (id, f) ∈ t := by
  induction t with
  | nil => simp [ptLookup] at h
  | cons e rest ih =>
    by_cases he : e.1 = id
    · simp only [ptLookup, if_pos he] at h
      have h2 : e.2 = f := by injection h
      have h3 : (id, f) = e := by rw [← he, ← h2]
      rw [h3]
      exact List.mem_cons_self _ _
    · simp only [ptLookup, if_neg he] at h
      exact List.mem_cons_of_mem _ (ih h)

theorem ptLookup_none {id : PageId} {t : List (PageId × Nat)}
    (h : ptLookup id t = none) : ∀ e ∈ t, e.1 ≠ id := by
  induction t with
  | nil => intro e he; simp at he
  | cons a rest ih =>
    by_cases ha : a.1 = id
    · simp [ptLookup, ha] at h
    · simp only [ptLookup, if_neg ha] at h
      intro e he
      rcases List.mem_cons.mp he with h1 | h1
      · subst h1; exact ha
      · exact ih h e h1

theorem ptLookup_of_mem {e : PageId × Nat} {t : List (PageId × Nat)}
    (hmem : e ∈ t)
    (hk : ∀ e1 ∈ t, ∀ e2 ∈ t, e1.1 = e2.1 → e1.2 = e2.2) :
    ptLookup e.1 t = some e.2 := by
  induction t with
  | nil => simp at hmem
  | cons a rest ih =>
    by_cases ha : a.1 = e.1
    · simp only [ptLookup, if_pos ha]
      have := hk a (List.mem_cons_self _ _) e hmem ha
      rw [this]
    · rcases List.mem_cons.mp hmem with h1 | h1
      · exact absurd (congrArg Prod.fst h1.symm) ha
      · simp only [ptLookup, if_neg ha]
        exact ih h1 fun e1 h1' e2 h2' =>
          hk e1 (List.mem_cons_of_mem _ h1') e2 (List.mem_cons_of_mem _ h2')

/-! ### The pool invariant -/

/-- Page-table part of the pool invariant: frame-injectivity,
key-functionality, identity consistency, and frame range. -/
def TableOk (s : BPM) : Prop :=
  (∀ e1 ∈ s.pageTable, ∀ e2 ∈ s.pageTable, e1.2 = e2.2 → e1.1 = e2.1) ∧
  (∀ e1 ∈ s.pageTable, ∀ e2 ∈ s.pageTable, e1.1 = e2.1 → e1.2 = e2.2) ∧
  (∀ e ∈ s.pageTable, (s.frames e.2).id_ = e.1) ∧
  (∀ e ∈ s.pageTable, e.2 < s.poolSize)

/-- Free-list part of the pool invariant: free frames host no resident
page, are unpinned, in range, and listed once. -/
def FreeOk (s : BPM) : Prop :=
  (∀ f ∈ s.freeList, ∀ e ∈ s.pageTable, e.2 ≠ f) ∧
  (∀ f ∈ s.freeList, (s.frames f).pin_count_ = 0) ∧
  (∀ f ∈ s.freeList, f < s.poolSize) ∧
  s.freeList.Nodup

/-- Replacer part of the pool invariant: eligible frames are unpinned,
in range, and listed once. -/
def RepOk (s : BPM) : Prop :=
  (∀ f ∈ s.replacer, (s.frames f).pin_count_ = 0) ∧
  (∀ f ∈ s.replacer, f < s.poolSize) ∧
  s.replacer.Nodup

/-- The inductive pool invariant. -/
def Inv (s : BPM) : Prop := TableOk s ∧ FreeOk s ∧ RepOk s

theorem inv_init (n : Nat) (dm : DiskManager) : Inv (initBPM n dm) := by
  refine ⟨⟨?_, ?_, ?_, ?_⟩, ⟨?_, ?_, ?_, ?_⟩, ?_, ?_, ?_⟩ <;>
    simp [initBPM, initPage, List.nodup_range]

/-! ### Replacer helper lemmas -/

theorem mem_repPin {x f : Nat} {r : List Nat} :
    x ∈ repPin f r ↔ x ∈ r ∧ x ≠ f := by
  simp [repPin, List.mem_filter]

theorem nodup_repPin {f : Nat} {r : List Nat} (h : r.Nodup) :
    (repPin f r).Nodup := h.filter _

theorem mem_repUnpin {x f : Nat} {r : List Nat} :
    x ∈ repUnpin f r ↔ x ∈ r ∨ x = f := by
  by_cases hf : f ∈ r
  · simp only [repUnpin, if_pos hf]
    constructor
    · exact Or.inl
    · rintro (h | rfl)
      · exact h
      · exact hf
  · simp [repUnpin, if_neg hf]

theorem nodup_repUnpin {f : Nat} {r : List Nat} (h : r.Nodup) :
    (repUnpin f r).Nodup := by
  by_cases hf : f ∈ r
  · simpa [repUnpin, if_pos hf] using h
  · simp only [repUnpin, if_neg hf]
    exact List.Nodup.append h (List.nodup_singleton f)
      (fun a ha hb => hf (by rwa [List.mem_singleton.mp hb] at ha))

/-! ### Victim selection -/

theorem find_victim_none {s s1 : BPM}
    (h : find_victim_page s = (none, s1)) :
    s1 = s ∧ s.freeList = [] ∧ s.replacer = [] := by
  rcases hfl : s.freeList with _ | ⟨f, rest⟩
  · rcases hr : s.replacer with _ | ⟨v, rest⟩
    · simp only [find_victim_page, hfl, hr] at h
      injection h with h1 h2
      exact ⟨h2.symm, rfl, rfl⟩
    · simp [find_victim_page, hfl, hr] at h
  · simp [find_victim_page, hfl] at h

/-- Everything a caller of `find_victim_page` learns on success: the
reduced state still satisfies the invariant, the returned frame hosts
no remaining table entry, is in range, unpinned, and off the free
list; frames, pool size, disk and trace are untouched. -/
theorem find_victim_spec {s fid s1} (hInv : Inv s)
    (h : find_victim_page s = (some fid, s1)) :
    Inv s1 ∧ (∀ e ∈ s1.pageTable, e.2 ≠ fid) ∧ fid < s1.poolSize ∧
    (s1.frames fid).pin_count_ = 0 ∧ fid ∉ s1.freeList ∧
    s1.frames = s.frames ∧ s1.poolSize = s.poolSize ∧
    s1.disk = s.disk ∧ s1.trace = s.trace := by
  obtain ⟨⟨hInj, hKey, hIdc, hRng⟩, ⟨hF1, hF2, hF3, hF4⟩, hR1, hR2, hR3⟩ := hInv
  rcases hfl : s.freeList with _ | ⟨f, rest⟩
  · rcases hr : s.replacer with _ | ⟨v, rest⟩
    · simp [find_victim_page, hfl, hr] at h
    · simp only [find_victim_page, hfl, hr] at h
      injection h with h1 h2
      injection h1 with h1
      subst h1
      subst h2
      have hvmem : v ∈ s.replacer := by
        rw [hr]; exact List.mem_cons_self _ _
      have hNot : ∀ e ∈ ptErase (s.frames v).id_ s.pageTable, e.2 ≠ v := by
        intro e he hc
        obtain ⟨hme, hne⟩ := mem_ptErase.mp he
        have h4 := hIdc e hme
        rw [hc] at h4
        exact hne h4.symm
      refine ⟨⟨⟨?_, ?_, ?_, ?_⟩, ⟨?_, ?_, ?_, ?_⟩, ?_, ?_, ?_⟩,
        hNot, hR2 v hvmem, hR1 v hvmem, ?_, rfl, rfl, rfl, rfl⟩
      · intro e1 h1' e2 h2' hq
        exact hInj e1 (mem_ptErase.mp h1').1 e2 (mem_ptErase.mp h2').1 hq
      · intro e1 h1' e2 h2' hq
        exact hKey e1 (mem_ptErase.mp h1').1 e2 (mem_ptErase.mp h2').1 hq
      · intro e he
        exact hIdc e (mem_ptErase.mp he).1
      · intro e he
        exact hRng e (mem_ptErase.mp he).1
      · intro g hg
        simp [hfl] at hg
      · intro g hg
        simp [hfl] at hg
      · intro g hg
        simp [hfl] at hg
      · simp [hfl]
      · intro g hg
        exact hR1 g (by rw [hr]; exact List.mem_cons_of_mem _ hg)
      · intro g hg
        exact hR2 g (by rw [hr]; exact List.mem_cons_of_mem _ hg)
      · exact (List.nodup_cons.mp (hr ▸ hR3)).2
      · simp [hfl]
  · simp only [find_victim_page, hfl] at h
    injection h with h1 h2
    injection h1 with h1
    subst h1
    subst h2
    have hmem : f ∈ s.freeList := by
      rw [hfl]; exact List.mem_cons_self _ _
    refine ⟨⟨⟨hInj, hKey, hIdc, hRng⟩, ⟨?_, ?_, ?_, ?_⟩, hR1, hR2, hR3⟩,
      hF1 f hmem, hF3 f hmem, hF2 f hmem, ?_, rfl, rfl, rfl, rfl⟩
    · intro g hg
      exact hF1 g (by rw [hfl]; exact List.mem_cons_of_mem _ hg)
    · intro g hg
      exact hF2 g (by rw [hfl]; exact List.mem_cons_of_mem _ hg)
    · intro g hg
      exact hF3 g (by rw [hfl]; exact List.mem_cons_of_mem _ hg)
    · exact (List.nodup_cons.mp (hfl ▸ hF4)).2
    · exact (List.nodup_cons.mp (hfl ▸ hF4)).1

/-- Installing identity `id` into a secured frame `fid` preserves the
invariant.  `T2` is whatever table the concrete operation builds before
its final insert; its non-`id` entries must all come from `s1`. -/
theorem inv_install {s1 sF : BPM} {fid : Nat} {id : PageId}
    {T2 : List (PageId × Nat)}
    (hInv1 : Inv s1)
    (hNot : ∀ e ∈ s1.pageTable, e.2 ≠ fid)
    (hFid : fid < s1.poolSize)
    (hFidFree : fid ∉ s1.freeList)
    (hPT : sF.pageTable = ptInsert id fid T2)
    (hSub : ∀ e ∈ T2, e.1 ≠ id → e ∈ s1.pageTable)
    (hFr : ∀ g, g ≠ fid → sF.frames g = s1.frames g)
    (hId : (sF.frames fid).id_ = id)
    (hFL : sF.freeList = s1.freeList)
    (hRp : sF.replacer = repPin fid s1.replacer)
    (hPS : sF.poolSize = s1.poolSize) :
    Inv sF := by
  obtain ⟨⟨hInj, hKey, hIdc, hRng⟩, ⟨hF1, hF2, hF3, hF4⟩, hR1, hR2, hR3⟩ := hInv1
  have hmem : ∀ e ∈ sF.pageTable,
      e = (id, fid) ∨ (e ∈ s1.pageTable ∧ e.1 ≠ id ∧ e.2 ≠ fid) := by
    intro e he
    rw [hPT] at he
    rcases mem_ptInsert.mp he with h1 | ⟨h1, h2⟩
    · exact Or.inl h1
    · have h3 := hSub e h1 h2
      exact Or.inr ⟨h3, h2, hNot e h3⟩
  refine ⟨⟨?_, ?_, ?_, ?_⟩, ⟨?_, ?_, ?_, ?_⟩, ?_, ?_, ?_⟩
  · intro e1 h1 e2 h2 hq
    rcases hmem e1 h1 with hc1 | ⟨m1, k1, f1⟩ <;>
      rcases hmem e2 h2 with hc2 | ⟨m2, k2, f2⟩
    · rw [hc1, hc2]
    · exact absurd (hq ▸ (by rw [hc1]) : e2.2 = fid) f2
    · exact absurd (hq ▸ (by rw [hc2]) : e1.2 = fid) f1
    · exact hInj e1 m1 e2 m2 hq
  · intro e1 h1 e2 h2 hq
    rcases hmem e1 h1 with hc1 | ⟨m1, k1, f1⟩ <;>
      rcases hmem e2 h2 with hc2 | ⟨m2, k2, f2⟩
    · rw [hc1, hc2]
    · exact absurd (hq ▸ (by rw [hc1]) : e2.1 = id) k2
    · exact absurd (hq ▸ (by rw [hc2]) : e1.1 = id) k1
    · exact hKey e1 m1 e2 m2 hq
  · intro e he
    rcases hmem e he with hc | ⟨m, _, f⟩
    · rw [hc]
      exact hId
    · rw [hFr e.2 f]
      exact hIdc e m
  · intro e he
    rw [hPS]
    rcases hmem e he with hc | ⟨m, _, _⟩
    · rw [hc]
      exact hFid
    · exact hRng e m
  · intro g hg e he
    rw [hFL] at hg
    rcases hmem e he with hc | ⟨m, _, _⟩
    · rw [hc]
      intro hgf
      apply hFidFree
      have h5 : fid = g := hgf
      rw [h5]
      exact hg
    · exact hF1 g hg e m
  · intro g hg
    rw [hFL] at hg
    have hgf : g ≠ fid := fun hc => hFidFree (hc ▸ hg)
    rw [hFr g hgf]
    exact hF2 g hg
  · intro g hg
    rw [hFL] at hg
    rw [hPS]
    exact hF3 g hg
  · rw [hFL]
    exact hF4
  · intro g hg
    rw [hRp] at hg
    obtain ⟨h1, h2⟩ := mem_repPin.mp hg
    rw [hFr g h2]
    exact hR1 g h1
  · intro g hg
    rw [hRp] at hg
    rw [hPS]
    exact hR2 g (mem_repPin.mp hg).1
  · rw [hRp]
    exact nodup_repPin hR3

/-! ### Invariant preservation by each public operation -/

theorem inv_fetch (id : PageId) (s : BPM) (h : Inv s) :
    Inv (fetch_page id s).2 := by
  rcases hl : ptLookup id s.pageTable with _ | fid
  · rcases hv : find_victim_page s with ⟨o, s1⟩
    rcases o with _ | fid
    · obtain ⟨rfl, -, -⟩ := find_victim_none hv
      simpa only [fetch_page, hl, hv] using h
    · obtain ⟨hInv1, hNot, hFid, hPin, hFidFree, hFrEq, hPS, hDk, hTr⟩ :=
        find_victim_spec h hv
      simp only [fetch_page, hl, hv]
      by_cases hd : (s1.frames fid).is_dirty_
      · simp only [if_pos hd]
        refine inv_install hInv1 hNot hFid hFidFree rfl ?_ ?_ (by simp)
          rfl rfl rfl
        · intro e he hne
          rcases mem_ptInsert.mp (by simpa [update_page] using he) with
            h1 | ⟨h1, h2⟩
          · exact absurd (by rw [h1]) hne
          · exact (mem_ptErase.mp h1).1
        · intro g hg
          simp [update_page, hg]
      · simp only [if_neg hd]
        refine inv_install hInv1 hNot hFid hFidFree rfl
          (fun e he _ => he) ?_ (by simp) rfl rfl rfl
        intro g hg
        simp [hg]
  · obtain ⟨⟨hInj, hKey, hIdc, hRng⟩, ⟨hF1, hF2, hF3, hF4⟩, hR1, hR2, hR3⟩ := h
    have hmemt := ptLookup_mem hl
    simp only [fetch_page, hl]
    refine ⟨⟨hInj, hKey, ?_, hRng⟩, ⟨hF1, ?_, hF3, hF4⟩, ?_, ?_, ?_⟩
    · intro e he
      have h6 := hIdc e he
      by_cases hef : e.2 = fid
      · simpa [hef] using h6
      · simpa [hef] using h6
    · intro g hg
      have h7 : fid ≠ g := hF1 g hg (id, fid) hmemt
      have h8 : ¬(g = fid) := fun hc => h7 hc.symm
      simpa [h8] using hF2 g hg
    · intro g hg
      obtain ⟨h1, h2⟩ := mem_repPin.mp hg
      simpa [h2] using hR1 g h1
    · intro g hg
      exact hR2 g (mem_repPin.mp hg).1
    · exact nodup_repPin hR3

theorem inv_unpin (id : PageId) (d : Bool) (s : BPM) (h : Inv s) :
    Inv (unpin_page id d s).2 := by
  rcases hl : ptLookup id s.pageTable with _ | fid
  · simpa only [unpin_page, hl] using h
  · by_cases hp : (s.frames fid).pin_count_ = 0
    · simpa only [unpin_page, hl, if_pos hp] using h
    · obtain ⟨⟨hInj, hKey, hIdc, hRng⟩, ⟨hF1, hF2, hF3, hF4⟩, hR1, hR2, hR3⟩ := h
      have hmemt := ptLookup_mem hl
      simp only [unpin_page, hl, if_neg hp]
      refine ⟨⟨hInj, hKey, ?_, hRng⟩, ⟨hF1, ?_, hF3, hF4⟩, ?_, ?_, ?_⟩
      · intro e he
        have h6 := hIdc e he
        by_cases hef : e.2 = fid
        · simpa [hef] using h6
        · simpa [hef] using h6
      · intro g hg
        have h7 : fid ≠ g := hF1 g hg (id, fid) hmemt
        have h8 : ¬(g = fid) := fun hc => h7 hc.symm
        simpa [h8] using hF2 g hg
      · intro g hg
        by_cases hz : (s.frames fid).pin_count_ - 1 = 0
        · by_cases hgf : g = fid
          · simp [hgf, hz]
          · rw [if_pos hz] at hg
            rcases mem_repUnpin.mp hg with h1 | h1
            · simpa [hgf] using hR1 g h1
            · exact absurd h1 hgf
        · rw [if_neg hz] at hg
          have hgf : ¬(g = fid) := by
            intro hc
            exact hp (hR1 g hg ▸ by rw [← hc])
          simpa [hgf] using hR1 g hg
      · intro g hg
        by_cases hz : (s.frames fid).pin_count_ - 1 = 0
        · rw [if_pos hz] at hg
          rcases mem_repUnpin.mp hg with h1 | h1
          · exact hR2 g h1
          · exact h1 ▸ hRng (id, fid) hmemt
        · rw [if_neg hz] at hg
          exact hR2 g hg
      · by_cases hz : (s.frames fid).pin_count_ - 1 = 0
        · rw [if_pos hz]
          exact nodup_repUnpin hR3
        · rw [if_neg hz]
          exact hR3

theorem inv_flush (id : PageId) (s : BPM) (h : Inv s) :
    Inv (flush_page id s).2 := by
  rcases hl : ptLookup id s.pageTable with _ | fid
  · simpa only [flush_page, hl] using h
  · by_cases hi : id.page_no = INVALID_PAGE_ID
    · simpa only [flush_page, hl, if_pos hi] using h
    · obtain ⟨⟨hInj, hKey, hIdc, hRng⟩, ⟨hF1, hF2, hF3, hF4⟩, hR1, hR2, hR3⟩ := h
      simp only [flush_page, hl, if_neg hi]
      refine ⟨⟨hInj, hKey, ?_, hRng⟩, ⟨hF1, ?_, hF3, hF4⟩, ?_, hR2, hR3⟩
      · intro e he
        have h6 := hIdc e he
        by_cases hef : e.2 = fid
        · simpa [hef] using h6
        · simpa [hef] using h6
      · intro g hg
        by_cases hgf : g = fid
        · simpa [hgf] using hF2 g hg
        · simpa [hgf] using hF2 g hg
      · intro g hg
        by_cases hgf : g = fid
        · simpa [hgf] using hR1 g hg
        · simpa [hgf] using hR1 g hg

theorem inv_new (pid : PageId) (s : BPM) (h : Inv s) :
    Inv (new_page pid s).2.2 := by
  rcases hv : find_victim_page s with ⟨o, s1⟩
  rcases o with _ | fid
  · obtain ⟨rfl, -, -⟩ := find_victim_none hv
    simpa only [new_page, hv] using h
  · obtain ⟨hInv1, hNot, hFid, hPin, hFidFree, hFrEq, hPS, hDk, hTr⟩ :=
      find_victim_spec h hv
    simp only [new_page, hv]
    refine inv_install hInv1 hNot hFid hFidFree rfl
      (fun e he _ => he) ?_ (by simp) rfl rfl rfl
    intro g hg
    simp [hg]

theorem inv_delete (id : PageId) (s : BPM) (h : Inv s) :
    Inv (delete_page id s).2 := by
  rcases hl : ptLookup id s.pageTable with _ | fid
  · simpa only [delete_page, hl] using h
  · by_cases hp : (s.frames fid).pin_count_ = 0
    · obtain ⟨⟨hInj, hKey, hIdc, hRng⟩, ⟨hF1, hF2, hF3, hF4⟩, hR1, hR2, hR3⟩ := h
      have hmemt := ptLookup_mem hl
      have hIdFid : (s.frames fid).id_ = id := hIdc (id, fid) hmemt
      have hNotFid : ∀ e ∈ ptErase id s.pageTable, e.2 ≠ fid := by
        intro e he hc
        obtain ⟨hme, hne⟩ := mem_ptErase.mp he
        have h4 := hIdc e hme
        rw [hc, hIdFid] at h4
        exact hne h4.symm
      have hFidNotFree : fid ∉ s.freeList :=
        fun hc => hF1 fid hc (id, fid) hmemt rfl
      simp only [delete_page, hl, if_neg (not_not_intro hp)]
      refine ⟨⟨?_, ?_, ?_, ?_⟩, ⟨?_, ?_, ?_, ?_⟩, ?_, ?_, ?_⟩
      · intro e1 h1 e2 h2 hq
        exact hInj e1 (mem_ptErase.mp h1).1 e2 (mem_ptErase.mp h2).1 hq
      · intro e1 h1 e2 h2 hq
        exact hKey e1 (mem_ptErase.mp h1).1 e2 (mem_ptErase.mp h2).1 hq
      · intro e he
        have h6 := hIdc e (mem_ptErase.mp he).1
        simpa [hNotFid e he] using h6
      · intro e he
        exact hRng e (mem_ptErase.mp he).1
      · intro g hg e he
        rcases List.mem_append.mp hg with h1 | h1
        · exact hF1 g h1 e (mem_ptErase.mp he).1
        · rw [List.mem_singleton.mp h1]
          exact hNotFid e he
      · intro g hg
        rcases List.mem_append.mp hg with h1 | h1
        · have hgf : ¬(g = fid) := fun hc => hFidNotFree (hc ▸ h1)
          simpa [hgf] using hF2 g h1
        · rw [List.mem_singleton.mp h1]
          simpa [resetMemory] using hp
      · intro g hg
        rcases List.mem_append.mp hg with h1 | h1
        · exact hF3 g h1
        · rw [List.mem_singleton.mp h1]
          exact hRng (id, fid) hmemt
      · exact List.Nodup.append hF4 (List.nodup_singleton fid)
          (fun a ha hb => hFidNotFree
            (by rwa [List.mem_singleton.mp hb] at ha))
      · intro g hg
        by_cases hgf : g = fid
        · simpa [hgf, resetMemory] using hp
        · rcases mem_repUnpin.mp hg with h1 | h1
          · simpa [hgf] using hR1 g h1
          · exact absurd h1 hgf
      · intro g hg
        rcases mem_repUnpin.mp hg with h1 | h1
        · exact hR2 g h1
        · exact h1 ▸ hRng (id, fid) hmemt
      · exact nodup_repUnpin hR3
    · simpa only [delete_page, hl, if_pos hp] using h

theorem inv_flush_all (fd : Int) (s : BPM) (h : Inv s) :
    Inv (flush_all_pages fd s) := by
  simp only [flush_all_pages]
  generalize s.pageTable.map Prod.fst = L
  induction L generalizing s with
  | nil => simpa using h
  | cons a rest ih => simpa using ih (flush_page a s).2 (inv_flush a s h)

/-- Every reachable pool state satisfies the invariant. -/
theorem inv_reachable {n : Nat} {dm : DiskManager} {s : BPM}
    (h : Reachable n dm s) : Inv s := by
  induction h with
  | init => exact inv_init n dm
  | fetch id s _ ih => exact inv_fetch id s ih
  | unpin id d s _ ih => exact inv_unpin id d s ih
  | flush id s _ ih => exact inv_flush id s ih
  | newp pid s _ ih => exact inv_new pid s ih
  | del id s _ ih => exact inv_delete id s ih
  | flushAll fd s _ ih => exact inv_flush_all fd s ih

/-! ### Concrete states used to exercise the theorems -/

/-- An empty disk: every page reads as empty, numbering starts at 0. -/
def dm0 : DiskManager := { store := fun _ => [], nextNo := fun _ => 0 }

/-- One-frame pool after `new_page` created page `(1,0)` (pinned). -/
def s_one : BPM := (new_page { fd := 1, page_no := 0 } (initBPM 1 dm0)).2.2

/-- Continuation: page `(1,0)` unpinned and marked dirty. -/
def s_run2 : BPM := (unpin_page { fd := 1, page_no := 0 } true s_one).2

/-- Continuation: page `(1,0)` deleted; its frame is on the free list. -/
def s_run3 : BPM := (delete_page { fd := 1, page_no := 0 } s_run2).2

/-! ### Claim theorems -/

/-- C1: the code violates the claim.  After deleting a dirty page the
frame sits on the free list with `is_dirty_` still `true` (delete_page
never clears it), so the next `fetch_page` that takes this frame from
the free list writes its reset bytes back to the old identity `(1,0)` a
second time — the spec says frames from the free list are never written
back at all.  This theorem evaluates the failing run: before the fetch
the trace holds exactly one write to `(1,0)`; the fetch appends a
second one. -/
theorem c1_free_frame_written_back :
    s_run3.freeList = [0] ∧
    (s_run3.frames 0).is_dirty_ = true ∧
    s_run3.trace = [DiskEvent.allocE 1 0, DiskEvent.writeE 1 0 []] ∧
    (fetch_page { fd := 2, page_no := 5 } s_run3).2.trace =
      [DiskEvent.allocE 1 0, DiskEvent.writeE 1 0 [],
       DiskEvent.writeE 1 0 [], DiskEvent.readE 2 5 []] := by
  refine ⟨by decide, by decide, by decide, by decide⟩

/-- C2: from any reachable pool state the page table is a bijection
between resident page ids and frame indices: no id has two frames, and
no frame hosts two ids. -/
theorem c2_page_table_bijection {n : Nat} {dm : DiskManager} {s : BPM}
    (h : Reachable n dm s) :
    (∀ e1 ∈ s.pageTable, ∀ e2 ∈ s.pageTable, e1.1 = e2.1 → e1.2 = e2.2) ∧
    (∀ e1 ∈ s.pageTable, ∀ e2 ∈ s.pageTable, e1.2 = e2.2 → e1.1 = e2.1) := by
  obtain ⟨⟨hInj, hKey, -, -⟩, -, -⟩ := inv_reachable h
  exact ⟨hKey, hInj⟩

/-- Witness for C2 at a concrete reachable state. -/
theorem c2_page_table_bijection_w :
    (∀ e1 ∈ s_one.pageTable, ∀ e2 ∈ s_one.pageTable,
      e1.1 = e2.1 → e1.2 = e2.2) ∧
    (∀ e1 ∈ s_one.pageTable, ∀ e2 ∈ s_one.pageTable,
      e1.2 = e2.2 → e1.1 = e2.1) :=
  c2_page_table_bijection
    (Reachable.newp { fd := 1, page_no := 0 } (initBPM 1 dm0) Reachable.init)

/-- C3: fetching a resident page performs no disk traffic (trace and
disk unchanged), bumps the hosting frame's pin count by one, notifies
the replacer of the pin, and returns that frame with its content
intact. -/
theorem c3_resident_fetch_no_io (id : PageId) (s : BPM) (fid : Nat)
    (h : ptLookup id s.pageTable = some fid) :
    (fetch_page id s).1 = some fid ∧
    (fetch_page id s).2.trace = s.trace ∧
    (fetch_page id s).2.disk = s.disk ∧
    ((fetch_page id s).2.frames fid).pin_count_ =
      (s.frames fid).pin_count_ + 1 ∧
    ((fetch_page id s).2.frames fid).data = (s.frames fid).data ∧
    (fetch_page id s).2.replacer = repPin fid s.replacer ∧
    (fetch_page id s).2.pageTable = s.pageTable := by
  simp [fetch_page, h]

/-- Witness for C3: refetching the resident page `(1,0)`. -/
theorem c3_resident_fetch_no_io_w :
    (fetch_page { fd := 1, page_no := 0 } s_one).1 = some 0 ∧
    ((fetch_page { fd := 1, page_no := 0 } s_one).2.frames 0).pin_count_ =
      (s_one.frames 0).pin_count_ + 1 :=
  have h := c3_resident_fetch_no_io { fd := 1, page_no := 0 } s_one 0 (by decide)
  ⟨h.1, h.2.2.2.1⟩

/-- C10: when no frame can be secured (empty free list, no victim),
`new_page` fails without allocating a page number and without touching
the caller's out-parameter or any other state. -/
theorem c10_new_page_alloc_after_frame (pid : PageId) (s : BPM)
    (h1 : s.freeList = []) (h2 : s.replacer = []) :
    new_page pid s = (none, pid, s) := by
  simp [new_page, find_victim_page, h1, h2]

/-- Witness for C10 on a zero-capacity pool. -/
theorem c10_new_page_alloc_after_frame_w :
    new_page { fd := 1, page_no := 7 } (initBPM 0 dm0) =
      (none, { fd := 1, page_no := 7 }, initBPM 0 dm0) :=
  c10_new_page_alloc_after_frame { fd := 1, page_no := 7 } (initBPM 0 dm0)
    rfl rfl

/-- C4: `unpin_page` fails exactly on a non-resident id or a zero pin
count, and a failing call changes nothing; a succeeding call decrements
the pin count by one (never below zero), notifies the replacer when the
count reaches zero, and returns true. -/
theorem c4_unpin_contract (id : PageId) (d : Bool) (s : BPM) :
    ((unpin_page id d s).1 = false ↔
      ptLookup id s.pageTable = none ∨
      ∃ fid, ptLookup id s.pageTable = some fid ∧
        (s.frames fid).pin_count_ = 0) ∧
    ((unpin_page id d s).1 = false → (unpin_page id d s).2 = s) ∧
    (∀ fid, ptLookup id s.pageTable = some fid →
      0 < (s.frames fid).pin_count_ →
      (unpin_page id d s).1 = true ∧
      ((unpin_page id d s).2.frames fid).pin_count_ =
        (s.frames fid).pin_count_ - 1 ∧
      ((unpin_page id d s).2.replacer =
        if (s.frames fid).pin_count_ - 1 = 0 then repUnpin fid s.replacer
        else s.replacer) ∧
      (unpin_page id d s).2.pageTable = s.pageTable ∧
      (unpin_page id d s).2.trace = s.trace) := by
  rcases hl : ptLookup id s.pageTable with _ | fid
  · simp [unpin_page, hl]
  · by_cases hp : (s.frames fid).pin_count_ = 0
    · simp [unpin_page, hl, hp]
    · simp [unpin_page, hl, hp]

/-- Witness for C4: unpinning the pinned page `(1,0)` succeeds. -/
theorem c4_unpin_contract_w :
    (unpin_page { fd := 1, page_no := 0 } false s_one).1 = true ∧
    ((unpin_page { fd := 1, page_no := 0 } false s_one).2.frames 0).pin_count_ =
      (s_one.frames 0).pin_count_ - 1 :=
  have h := (c4_unpin_contract { fd := 1, page_no := 0 } false s_one).2.2 0
    (by decide) (by decide)
  ⟨h.1, h.2.1⟩

/-- C5: the dirty flag is monotone under `unpin_page`: unpinning with
`is_dirty = true` sets it, unpinning with `is_dirty = false` leaves it
as it was, and no `unpin_page` call ever clears a set dirty flag on any
frame. -/
theorem c5_dirty_monotone_unpin (id : PageId) (s : BPM) (fid : Nat)
    (h : ptLookup id s.pageTable = some fid)
    (hp : 0 < (s.frames fid).pin_count_) :
    ((unpin_page id true s).2.frames fid).is_dirty_ = true ∧
    ((unpin_page id false s).2.frames fid).is_dirty_ =
      (s.frames fid).is_dirty_ ∧
    (∀ d : Bool, ∀ g : Nat, (s.frames g).is_dirty_ = true →
      ((unpin_page id d s).2.frames g).is_dirty_ = true) := by
  have hp' : ¬((s.frames fid).pin_count_ = 0) := Nat.pos_iff_ne_zero.mp hp
  refine ⟨by simp [unpin_page, h, hp'], by simp [unpin_page, h, hp'], ?_⟩
  intro d g hg
  by_cases hgf : g = fid
  · subst hgf
    simp [unpin_page, h, hp', hg]
  · simp [unpin_page, h, hp', hgf, hg]

/-- Witness for C5 on the pinned page `(1,0)`. -/
theorem c5_dirty_monotone_unpin_w :
    ((unpin_page { fd := 1, page_no := 0 } true s_one).2.frames 0).is_dirty_ =
      true :=
  (c5_dirty_monotone_unpin { fd := 1, page_no := 0 } s_one 0
    (by decide) (by decide)).1

/-- C6: `flush_page` fails exactly on a non-resident id or the invalid
sentinel; otherwise — regardless of pin count or dirtiness — it writes
the frame's current bytes at the page's identity, clears the dirty
flag, and returns true, and a second flush writes identical bytes and
leaves the flag false again. -/
theorem c6_flush_contract (id : PageId) (s : BPM) :
    ((flush_page id s).1 = false ↔
      ptLookup id s.pageTable = none ∨ id.page_no = INVALID_PAGE_ID) ∧
    (∀ fid, ptLookup id s.pageTable = some fid →
      id.page_no ≠ INVALID_PAGE_ID →
      (flush_page id s).1 = true ∧
      (flush_page id s).2.trace =
        s.trace ++ [DiskEvent.writeE id.fd id.page_no (s.frames fid).data] ∧
      (flush_page id s).2.disk.store id = (s.frames fid).data ∧
      ((flush_page id s).2.frames fid).is_dirty_ = false ∧
      (flush_page id (flush_page id s).2).2.trace =
        s.trace ++ [DiskEvent.writeE id.fd id.page_no (s.frames fid).data,
                    DiskEvent.writeE id.fd id.page_no (s.frames fid).data] ∧
      ((flush_page id (flush_page id s).2).2.frames fid).is_dirty_ =
        false) := by
  rcases hl : ptLookup id s.pageTable with _ | fid
  · simp [flush_page, hl]
  · by_cases hi : id.page_no = INVALID_PAGE_ID
    · simp [flush_page, hl, hi]
    · simp [flush_page, hl, hi, writePage]

/-- Witness for C6: flushing the resident page `(1,0)` twice. -/
theorem c6_flush_contract_w :
    (flush_page { fd := 1, page_no := 0 } s_one).1 = true ∧
    ((flush_page { fd := 1, page_no := 0 }
        (flush_page { fd := 1, page_no := 0 } s_one).2).2.frames 0).is_dirty_ =
      false :=
  have h := (c6_flush_contract { fd := 1, page_no := 0 } s_one).2 0
    (by decide) (by decide)
  ⟨h.1, h.2.2.2.2.2⟩

/-- C7: `delete_page` succeeds with no state change on a non-resident
id, fails with no state change on a pinned resident page, and on an
unpinned resident page writes back if dirty, drops the table entry,
resets the frame's content, notifies the replacer, pushes the frame on
the free list, and returns true. -/
theorem c7_delete_contract (id : PageId) (s : BPM) :
    (ptLookup id s.pageTable = none → delete_page id s = (true, s)) ∧
    (∀ fid, ptLookup id s.pageTable = some fid →
      (s.frames fid).pin_count_ ≠ 0 → delete_page id s = (false, s)) ∧
    (∀ fid, ptLookup id s.pageTable = some fid →
      (s.frames fid).pin_count_ = 0 →
      (delete_page id s).1 = true ∧
      (delete_page id s).2.pageTable = ptErase id s.pageTable ∧
      (delete_page id s).2.freeList = s.freeList ++ [fid] ∧
      (delete_page id s).2.replacer = repUnpin fid s.replacer ∧
      ((delete_page id s).2.frames fid).data = emptyData ∧
      ((delete_page id s).2.frames fid).pin_count_ = 0 ∧
      (delete_page id s).2.trace =
        (if (s.frames fid).is_dirty_ then
          s.trace ++ [DiskEvent.writeE (s.frames fid).id_.fd
            (s.frames fid).id_.page_no (s.frames fid).data]
         else s.trace)) := by
  rcases hl : ptLookup id s.pageTable with _ | fid
  · simp [delete_page, hl]
  · by_cases hp : (s.frames fid).pin_count_ = 0
    · simp [delete_page, hl, hp, resetMemory]
    · simp [delete_page, hl, hp]

/-- Witness for C7: deleting a never-fetched id succeeds trivially. -/
theorem c7_delete_contract_w :
    delete_page { fd := 9, page_no := 9 } s_one = (true, s_one) :=
  (c7_delete_contract { fd := 9, page_no := 9 } s_one).1 (by decide)

/-- C8: under the invariant, with the free list empty and every frame
pinned, a fetch of a non-resident id and any `new_page` call both fail
and change nothing; moreover frame acquisition only ever yields an
unpinned frame, so no frame is repurposed while pinned. -/
theorem c8_pool_exhaustion (s : BPM) (hInv : Inv s) :
    (∀ id pid, s.freeList = [] →
      (∀ f, f < s.poolSize → 0 < (s.frames f).pin_count_) →
      ptLookup id s.pageTable = none →
      fetch_page id s = (none, s) ∧ (new_page pid s).1 = none) ∧
    (∀ fid s1, find_victim_page s = (some fid, s1) →
      (s.frames fid).pin_count_ = 0) := by
  constructor
  · intro id pid hfl hpin hl
    have hrep : s.replacer = [] := by
      rcases hr : s.replacer with _ | ⟨v, rest⟩
      · rfl
      · exfalso
        have hv : v ∈ s.replacer := by rw [hr]; exact List.mem_cons_self _ _
        have h1 := hpin v (hInv.2.2.2.1 v hv)
        rw [hInv.2.2.1 v hv] at h1
        exact lt_irrefl 0 h1
    have hfv : find_victim_page s = (none, s) := by
      simp [find_victim_page, hfl, hrep]
    constructor
    · simp [fetch_page, hl, hfv]
    · simp [new_page, hfv]
  · intro fid s1 h
    obtain ⟨-, -, -, hp, -, hFr, -, -, -⟩ := find_victim_spec hInv h
    rw [hFr] at hp
    exact hp

/-- Witness for C8: the one-frame pool with its only page pinned
rejects a fetch of a new page and a `new_page` call. -/
theorem c8_pool_exhaustion_w :
    fetch_page { fd := 2, page_no := 5 } s_one = (none, s_one) ∧
    (new_page { fd := 3, page_no := 0 } s_one).1 = none :=
  (c8_pool_exhaustion s_one
      (inv_reachable
        (Reachable.newp { fd := 1, page_no := 0 } (initBPM 1 dm0)
          Reachable.init))).1
    { fd := 2, page_no := 5 } { fd := 3, page_no := 0 }
    (by decide) (by decide) (by decide)

/-! ### Flush-all helper lemmas -/

theorem flush_pageTable (id : PageId) (s : BPM) :
    (flush_page id s).2.pageTable = s.pageTable := by
  rcases hl : ptLookup id s.pageTable with _ | fid
  · simp [flush_page, hl]
  · by_cases hi : id.page_no = INVALID_PAGE_ID <;> simp [flush_page, hl, hi]

theorem flush_dirty_pres (id : PageId) (s : BPM) (g : Nat)
    (h : (s.frames g).is_dirty_ = false) :
    ((flush_page id s).2.frames g).is_dirty_ = false := by
  rcases hl : ptLookup id s.pageTable with _ | fid
  · simpa [flush_page, hl] using h
  · by_cases hi : id.page_no = INVALID_PAGE_ID
    · simpa [flush_page, hl, hi] using h
    · by_cases hgf : g = fid <;> simp [flush_page, hl, hi, hgf, h]

theorem flush_trace_mono (id : PageId) (s : BPM) (e : DiskEvent)
    (h : e ∈ s.trace) : e ∈ (flush_page id s).2.trace := by
  rcases hl : ptLookup id s.pageTable with _ | fid
  · simpa [flush_page, hl] using h
  · by_cases hi : id.page_no = INVALID_PAGE_ID
    · simpa [flush_page, hl, hi] using h
    · simp only [flush_page, hl, if_neg hi, List.mem_append]
      exact Or.inl h

theorem foldl_flush_pageTable (L : List PageId) (s : BPM) :
    (L.foldl (fun st id => (flush_page id st).2) s).pageTable =
      s.pageTable := by
  induction L generalizing s with
  | nil => rfl
  | cons a rest ih =>
    simp only [List.foldl_cons]
    rw [ih, flush_pageTable]

theorem foldl_flush_dirty_pres (L : List PageId) (s : BPM) (g : Nat)
    (h : (s.frames g).is_dirty_ = false) :
    ((L.foldl (fun st id => (flush_page id st).2) s).frames g).is_dirty_ =
      false := by
  induction L generalizing s with
  | nil => exact h
  | cons a rest ih =>
    simp only [List.foldl_cons]
    exact ih (flush_page a s).2 (flush_dirty_pres a s g h)

theorem foldl_flush_trace_mono (L : List PageId) (s : BPM) (e : DiskEvent)
    (h : e ∈ s.trace) :
    e ∈ (L.foldl (fun st id => (flush_page id st).2) s).trace := by
  induction L generalizing s with
  | nil => exact h
  | cons a rest ih =>
    simp only [List.foldl_cons]
    exact ih (flush_page a s).2 (flush_trace_mono a s e h)

/-- Folding `flush_page` over a key list that covers an entry clears
that entry's dirty flag and records a write for its identity. -/
theorem flush_all_entry (L : List PageId) (s : BPM)
    (hk : ∀ e1 ∈ s.pageTable, ∀ e2 ∈ s.pageTable, e1.1 = e2.1 → e1.2 = e2.2)
    (e : PageId × Nat) (he : e ∈ s.pageTable) (hL : e.1 ∈ L)
    (hv : e.1.page_no ≠ INVALID_PAGE_ID) :
    ((L.foldl (fun st id => (flush_page id st).2) s).frames e.2).is_dirty_ =
      false ∧
    ∃ d, DiskEvent.writeE e.1.fd e.1.page_no d ∈
      (L.foldl (fun st id => (flush_page id st).2) s).trace := by
  induction L generalizing s with
  | nil => simp at hL
  | cons a rest ih =>
    simp only [List.foldl_cons]
    by_cases hae : a = e.1
    · subst hae
      have hlk := ptLookup_of_mem he hk
      have h1 : ((flush_page e.1 s).2.frames e.2).is_dirty_ = false := by
        simp [flush_page, hlk, hv]
      have h2 : DiskEvent.writeE e.1.fd e.1.page_no (s.frames e.2).data ∈
          (flush_page e.1 s).2.trace := by
        simp [flush_page, hlk, hv]
      exact ⟨foldl_flush_dirty_pres rest _ e.2 h1,
        ⟨(s.frames e.2).data, foldl_flush_trace_mono rest _ _ h2⟩⟩
    · have hL' : e.1 ∈ rest := by
        rcases List.mem_cons.mp hL with h1 | h1
        · exact absurd h1.symm hae
        · exact h1
      exact ih (flush_page a s).2
        (by rw [flush_pageTable]; exact hk)
        (by rw [flush_pageTable]; exact he) hL'

/-- C9: `flush_all_pages` ignores its file-descriptor argument
entirely, and flushes every resident page (with a valid page number):
each table entry's frame ends up clean and a write for its identity is
on the trace, dirty or not. -/
theorem c9_flush_all_ignores_fd (a b : Int) (s : BPM) (hInv : Inv s)
    (hval : ∀ e ∈ s.pageTable, e.1.page_no ≠ INVALID_PAGE_ID) :
    flush_all_pages a s = flush_all_pages b s ∧
    ∀ e ∈ s.pageTable,
      ((flush_all_pages a s).frames e.2).is_dirty_ = false ∧
      ∃ d, DiskEvent.writeE e.1.fd e.1.page_no d ∈
        (flush_all_pages a s).trace := by
  refine ⟨rfl, ?_⟩
  intro e he
  exact flush_all_entry (s.pageTable.map Prod.fst) s hInv.1.2.1 e he
    (List.mem_map_of_mem Prod.fst he) (hval e he)

/-- Witness for C9 on the one-page pool. -/
theorem c9_flush_all_ignores_fd_w :
    ((flush_all_pages 7 s_one).frames 0).is_dirty_ = false :=
  ((c9_flush_all_ignores_fd 7 8 s_one
      (inv_reachable
        (Reachable.newp { fd := 1, page_no := 0 } (initBPM 1 dm0)
          Reachable.init))
      (by decide)).2 ({ fd := 1, page_no := 0 }, 0) (by decide)).1

end UniBase
